import Mathlib

/-!
Shallow embedding of the inkdown-community registry validation scripts
(`scripts/validate-pr.mjs` and `scripts/validate-releases.mjs`), with the
network and collaborator-script effects abstracted as explicit oracles,
together with theorems checking the specification's claims about them.
-/

namespace Inkdown

/-- JavaScript-style substring search: `listContains pat s` models
`s.includes(pat)` on lists of characters. -/
def listContains (pat : List Char) : List Char → Bool
  | [] => pat.isEmpty
  | c :: rest => pat.isPrefixOf (c :: rest) || listContains pat rest

/-- JavaScript `s.includes(pat)` on strings. -/
def sContains (pat s : String) : Bool := listContains pat.data s.data

/-- JavaScript `s.startsWith(pre)`. -/
def jsStartsWith (pre s : String) : Bool := pre.data.isPrefixOf s.data

/-- JavaScript `s.endsWith(suf)`. -/
def jsEndsWith (suf s : String) : Bool := suf.data.isSuffixOf s.data

/-- JavaScript `String.prototype.replace` with a string pattern and empty
replacement: removes the first occurrence of `pat`, leaves the string
unchanged when `pat` does not occur. -/
def replaceFirstL (pat : List Char) : List Char → List Char
  | [] => []
  | c :: rest =>
    if pat.isPrefixOf (c :: rest) then (c :: rest).drop pat.length
    else c :: replaceFirstL pat rest

/-- String wrapper for `replaceFirstL`: `jsReplaceFirst s pat` models
`s.replace(pat, '')`. -/
def jsReplaceFirst (s pat : String) : String := ⟨replaceFirstL pat.data s.data⟩

/-- JavaScript `s.slice(0, -1)`: drop the final character. -/
def jsDropLast (s : String) : String := ⟨s.data.dropLast⟩

/-- One registry entry (an element of `plugins.json` / `themes.json`).
`version` and `modes` are optional because the scripts guard against their
absence (`!plugin.version`, `theme.modes || ['dark']`). -/
structure Item where
  id : String
  name : String
  version : Option String
  repo : String
  modes : Option (List String)
deriving DecidableEq, Repr

/-- A fetched release `manifest.json` document; both fields may be absent. -/
structure Manifest where
  id : Option String
  version : Option String
deriving DecidableEq, Repr

/-- Diagnostic lines emitted by the release validators (`console.error` /
`console.log` calls), abstracted to tags. -/
inductive Diag where
  | missingVersion
  | assetNotFound (tried : List String)
  | manifestMissing
  | idMismatch
  | versionMismatch
  | foundStyles
  | foundCss (mode : String)
  | missingCss (mode : String)
deriving DecidableEq, Repr

/-- Raw content of a registry file as seen by `JSON.parse`: either a parsed
array of entries or malformed text (on which `JSON.parse` throws). -/
inductive RawDoc where
  | parsed (items : List Item)
  | malformed
deriving DecidableEq, Repr

/-- Network oracle: `urlExists` models `checkUrlExists` (HEAD probe, any
transport failure or non-ok status is `false`); `fetchJson` models
`fetchJson` (GET, `none` on failure, non-ok status, or unparseable body). -/
structure NetEnv where
  urlExists : String → Bool
  fetchJson : String → Option Manifest

/-- Embeds `getJson` of `validate-releases.mjs`: falsy content gives `[]`,
a parse error is caught and gives `[]`. -/
def getJson : Option RawDoc → List Item
  | none => []
  | some (.parsed items) => items
  | some .malformed => []

/-- Embeds `getModifiedItems` of `validate-releases.mjs`. `fileExists` is
`Bun.file(filePath).exists()`, `currentRaw` the working-copy content, and
`mainRaw` the output of `git show origin/main:filePath` (`none` when the git
command failed or printed nothing, both falsy in the script). -/
def getModifiedItems (fileExists : Bool) (currentRaw : RawDoc)
    (mainRaw : Option RawDoc) : List Item :=
  if !fileExists then []
  else
    let currentItems := getJson (some currentRaw)
    match mainRaw with
    | none => currentItems
    | some raw =>
      let mainItems := getJson (some raw)
      currentItems.filter fun item =>
        match mainItems.find? (fun oldItem => oldItem.id == item.id) with
        | none => true
        | some old => old.version != item.version

/-- Embeds `getAssetUrl` of `validate-releases.mjs`: two JavaScript
`replace` calls (first occurrence each) and a trailing-slash trim, then the
releases-download URL. -/
def getAssetUrl (repo version filename : String) : String :=
  let cleanRepo0 := jsReplaceFirst (jsReplaceFirst repo "https://github.com/") "http://github.com/"
  let cleanRepo := if jsEndsWith "/" cleanRepo0 then jsDropLast cleanRepo0 else cleanRepo0
  "https://github.com/" ++ cleanRepo ++ "/releases/download/" ++ version ++ "/" ++ filename

/-- Modelled from the spec's words for comparison with `getAssetUrl`
(refinement check of claim C8): strips a LEADING `https://github.com/` or
`http://github.com/` prefix and a trailing slash, then rebuilds the
releases-download URL. -/
def specAssetUrl (repo version filename : String) : String :=
  let r1 : String :=
    if jsStartsWith "https://github.com/" repo then ⟨repo.data.drop 19⟩
    else if jsStartsWith "http://github.com/" repo then ⟨repo.data.drop 18⟩
    else repo
  let r2 := if jsEndsWith "/" r1 then jsDropLast r1 else r1
  "https://github.com/" ++ r2 ++ "/releases/download/" ++ version ++ "/" ++ filename

/-- Embeds the `versionsToTry` construction shared by `validatePluginRelease`
and `validateThemeRelease`: the version itself, then a `v`-prefixed copy when
the version does not already start with `v`. -/
def versionsToTry (version : String) : List String :=
  let arr := [version]
  if !(jsStartsWith "v" version) then arr ++ ["v" ++ version] else arr

/-- Embeds the candidate-probing loop of both release validators: probe
`getAssetUrl repo v asset` for each candidate tag `v` in order, stopping at
the first success and returning its base URL and tag. -/
def locateAsset (env : NetEnv) (repo asset : String) : List String → Option (String × String)
  | [] => none
  | v :: rest =>
    if env.urlExists (getAssetUrl repo v asset) then some (getAssetUrl repo v "", v)
    else locateAsset env repo asset rest

/-- Trace of the URLs probed by the candidate loop, in order. -/
def locateProbes (env : NetEnv) (repo asset : String) : List String → List String
  | [] => []
  | v :: rest =>
    if env.urlExists (getAssetUrl repo v asset) then [getAssetUrl repo v asset]
    else getAssetUrl repo v asset :: locateProbes env repo asset rest

/-- Embeds `theme.modes || ['dark']`: the default applies when `modes` is
absent (an explicitly empty list is truthy in JavaScript and kept). -/
def themeModes (t : Item) : List String :=
  match t.modes with
  | none => ["dark"]
  | some ms => ms

/-- Embeds `validatePluginRelease` of `validate-releases.mjs`, returning the
boolean verdict and the emitted diagnostics. -/
def validatePluginRelease (env : NetEnv) (p : Item) : Bool × List Diag :=
  match p.version with
  | none => (false, [Diag.missingVersion])
  | some ver =>
    if ver = "" then (false, [Diag.missingVersion])
    else
      match locateAsset env p.repo "main.js" (versionsToTry ver) with
      | none => (false, [Diag.assetNotFound (versionsToTry ver)])
      | some (baseUrl, _foundVersion) =>
        match env.fetchJson (baseUrl ++ "manifest.json") with
        | none => (false, [Diag.manifestMissing])
        | some manifest =>
          let idOk := manifest.id == some p.id
          let verOk := manifest.version == some ver
          let styleDiags :=
            if env.urlExists (baseUrl ++ "styles.css") then [Diag.foundStyles] else []
          (idOk && verOk,
            (if idOk then [] else [Diag.idMismatch]) ++
            (if verOk then [] else [Diag.versionMismatch]) ++ styleDiags)

/-- Embeds `validateThemeRelease` of `validate-releases.mjs`. -/
def validateThemeRelease (env : NetEnv) (t : Item) : Bool × List Diag :=
  match t.version with
  | none => (false, [Diag.missingVersion])
  | some ver =>
    if ver = "" then (false, [Diag.missingVersion])
    else
      match locateAsset env t.repo "theme.json" (versionsToTry ver) with
      | none => (false, [Diag.assetNotFound (versionsToTry ver)])
      | some (baseUrl, _foundVersion) =>
        let modes := themeModes t
        let darkRes : Bool × List Diag :=
          if modes.contains "dark" then
            if env.urlExists (baseUrl ++ "dark.css") then (true, [Diag.foundCss "dark"])
            else (false, [Diag.missingCss "dark"])
          else (true, [])
        let lightRes : Bool × List Diag :=
          if modes.contains "light" then
            if env.urlExists (baseUrl ++ "light.css") then (true, [Diag.foundCss "light"])
            else (false, [Diag.missingCss "light"])
          else (true, [])
        (darkRes.1 && lightRes.1, darkRes.2 ++ lightRes.2)

/-- Core of `main` of `validate-releases.mjs`, after the modified-item lists
and the argument flags are computed: the skip-if-nothing-to-check branch, the
two validation loops (each recording one verdict per entry, folded into
`allValid` exactly as the script's mutable flag), and the exit code. Returns
the exit code and the per-entry verdicts recorded by each loop, in order. -/
def relMainCore (checkPlugins checkThemes : Bool)
    (modifiedPlugins modifiedThemes : List Item) (env : NetEnv) :
    Nat × List (Item × Bool) × List (Item × Bool) :=
  let pluginsToValidate := if checkPlugins then modifiedPlugins else []
  let themesToValidate := if checkThemes then modifiedThemes else []
  if pluginsToValidate.isEmpty && themesToValidate.isEmpty then (0, [], [])
  else
    let pluginPairs :=
      if checkPlugins && !modifiedPlugins.isEmpty then
        modifiedPlugins.map (fun p => (p, (validatePluginRelease env p).1))
      else []
    let themePairs :=
      if checkThemes && !modifiedThemes.isEmpty then
        modifiedThemes.map (fun t => (t, (validateThemeRelease env t).1))
      else []
    let allValid := (pluginPairs ++ themePairs).foldl (fun acc r => acc && r.2) true
    (if allValid then 0 else 1, pluginPairs, themePairs)

/-- Embeds `main` of `validate-releases.mjs`. Inputs are the CLI arguments
and, per registry file, its existence flag, working-copy content, and base
(`origin/main`) content. -/
def relMain (args : List String)
    (pluginsExists : Bool) (pluginsRaw : RawDoc) (pluginsBase : Option RawDoc)
    (themesExists : Bool) (themesRaw : RawDoc) (themesBase : Option RawDoc)
    (env : NetEnv) : Nat × List (Item × Bool) × List (Item × Bool) :=
  relMainCore (args.isEmpty || args.contains "plugins")
    (args.isEmpty || args.contains "themes")
    (getModifiedItems pluginsExists pluginsRaw pluginsBase)
    (getModifiedItems themesExists themesRaw themesBase) env

/-- Collaborator oracle for the orchestrator: `runScript path args` models
`runScript` of `validate-pr.mjs` (`true` iff the child exits 0). -/
structure PrEnv where
  runScript : String → List String → Bool

/-- Terminal outcome of `main` in `validate-pr.mjs`. -/
inductive PrOutcome where
  | rejected
  | skipped
  | concluded (success : Bool)
deriving DecidableEq, Repr

/-- Process exit code attached to each orchestrator outcome. -/
def prExitCode : PrOutcome → Nat
  | .rejected => 1
  | .skipped => 0
  | .concluded true => 0
  | .concluded false => 1

/-- Embeds `main` of `validate-pr.mjs` from the classification step on:
given the changed file paths of the diff, classifies the change (substring
match on the registry filenames), enforces the exclusivity rule, and
otherwise runs the collaborator scripts in order, folding their exit
statuses into `success`. Returns the outcome and the scripts invoked. -/
def prMain (env : PrEnv) (changedFiles : List String) :
    PrOutcome × List (String × List String) :=
  let pluginsModified := changedFiles.any (fun f => sContains "plugins.json" f)
  let themesModified := changedFiles.any (fun f => sContains "themes.json" f)
  if pluginsModified && themesModified then (.rejected, [])
  else if !pluginsModified && !themesModified then (.skipped, [])
  else
    let pluginScripts :=
      if pluginsModified then
        [("scripts/validate-json.mjs", ["plugins.json"]),
         ("scripts/validate-plugins.mjs", ([] : List String)),
         ("scripts/validate-releases.mjs", ["plugins"])]
      else []
    let themeScripts :=
      if themesModified then
        [("scripts/validate-json.mjs", ["themes.json"]),
         ("scripts/validate-releases.mjs", ["themes"])]
      else []
    let scripts := pluginScripts ++ themeScripts
    let success := scripts.foldl (fun acc s => acc && env.runScript s.1 s.2) true
    (.concluded success, scripts)

/-! Helper lemmas about the embedded primitives. -/

theorem foldl_and_eq_all {α : Type} (l : List (α × Bool)) (b : Bool) :
    l.foldl (fun acc r => acc && r.2) b = (b && l.all (fun r => r.2)) := by
  induction l generalizing b with
  | nil => simp
  | cons x xs ih => simp [List.foldl_cons, ih, Bool.and_assoc]

theorem locateAsset_eq_find (env : NetEnv) (repo asset : String) (l : List String) :
    locateAsset env repo asset l =
      (l.find? (fun v => env.urlExists (getAssetUrl repo v asset))).map
        (fun v => (getAssetUrl repo v "", v)) := by
  induction l with
  | nil => rfl
  | cons v rest ih =>
    cases h : env.urlExists (getAssetUrl repo v asset) with
    | true => simp [locateAsset, h, List.find?_cons_of_pos]
    | false => simp [locateAsset, h, List.find?_cons_of_neg, ih]

theorem locateProbes_eq (env : NetEnv) (repo asset : String) (l : List String) :
    locateProbes env repo asset l =
      (l.takeWhile (fun v => !env.urlExists (getAssetUrl repo v asset))).map
        (fun v => getAssetUrl repo v asset) ++
      ((l.find? (fun v => env.urlExists (getAssetUrl repo v asset))).map
        (fun v => getAssetUrl repo v asset)).toList := by
  induction l with
  | nil => rfl
  | cons v rest ih =>
    cases h : env.urlExists (getAssetUrl repo v asset) with
    | true => simp [locateProbes, h, List.find?_cons_of_pos]
    | false => simp [locateProbes, h, List.find?_cons_of_neg, ih]

theorem listContains_of_isPrefixOf (pat s : List Char) (h : pat.isPrefixOf s = true) :
    listContains pat s = true := by
  cases s with
  | nil =>
    cases pat with
    | nil => rfl
    | cons c cs => simp [List.isPrefixOf] at h
  | cons c rest => simp [listContains, h]

theorem replaceFirstL_of_isPrefixOf (pat s : List Char) (h : pat.isPrefixOf s = true) :
    replaceFirstL pat s = s.drop pat.length := by
  cases s with
  | nil => simp [replaceFirstL]
  | cons c rest => simp [replaceFirstL, h]

theorem replaceFirstL_of_not_contains (pat s : List Char)
    (h : listContains pat s = false) : replaceFirstL pat s = s := by
  induction s with
  | nil => rfl
  | cons c rest ih =>
    simp only [listContains, Bool.or_eq_false_iff] at h
    simp [replaceFirstL, h.1, ih h.2]

/-! Claim theorems. -/

/-- Claim C1: if the set of changed paths touches both the plugins registry
and the themes registry, the orchestrator terminates with a non-zero exit
status before any validation step runs: no collaborator script is invoked
(hence no HTTP probe or per-entry check), and the behaviour is independent
of every collaborator oracle. -/
theorem claim1_exclusivity_rejects_before_validation (env : PrEnv) (files : List String)
    (hp : files.any (fun f => sContains "plugins.json" f) = true)
    (ht : files.any (fun f => sContains "themes.json" f) = true) :
    prMain env files = (PrOutcome.rejected, []) ∧
    prExitCode (prMain env files).1 ≠ 0 ∧
    ∀ env' : PrEnv, prMain env' files = prMain env files := by
  have h1 : prMain env files = (PrOutcome.rejected, []) := by
    simp [prMain, hp, ht]
  refine ⟨h1, ?_, ?_⟩
  · rw [h1]; simp [prExitCode]
  · intro env'; rw [h1]; simp [prMain, hp, ht]

/-- Witness for C1 at the concrete diff `["plugins.json", "themes.json"]`. -/
theorem claim1_witness :
    (["plugins.json", "themes.json"].any (fun f => sContains "plugins.json" f) = true) ∧
    (prMain ⟨fun _ _ => true⟩ ["plugins.json", "themes.json"] = (PrOutcome.rejected, []) ∧
      prExitCode (prMain ⟨fun _ _ => true⟩ ["plugins.json", "themes.json"]).1 ≠ 0 ∧
      ∀ env' : PrEnv, prMain env' ["plugins.json", "themes.json"] =
        prMain ⟨fun _ _ => true⟩ ["plugins.json", "themes.json"]) :=
  ⟨by decide,
    claim1_exclusivity_rejects_before_validation ⟨fun _ _ => true⟩
      ["plugins.json", "themes.json"] (by decide) (by decide)⟩

/-- Claim C3: the candidate tag list is `[version]` when the version starts
with `v` and `[version, "v" ++ version]` otherwise; candidates are probed in
exactly that order, the first reachable candidate determines the returned
base URL and resolved tag, and no candidate after the first success is ever
probed (the probe trace is the failing head of the candidate list followed by
the single successful probe, if any). -/
theorem claim3_locator_first_candidate_wins (env : NetEnv) (repo asset version : String) :
    versionsToTry version =
      (if jsStartsWith "v" version then [version] else [version, "v" ++ version]) ∧
    locateAsset env repo asset (versionsToTry version) =
      ((versionsToTry version).find? (fun v => env.urlExists (getAssetUrl repo v asset))).map
        (fun v => (getAssetUrl repo v "", v)) ∧
    locateProbes env repo asset (versionsToTry version) =
      ((versionsToTry version).takeWhile
          (fun v => !env.urlExists (getAssetUrl repo v asset))).map
        (fun v => getAssetUrl repo v asset) ++
      (((versionsToTry version).find? (fun v => env.urlExists (getAssetUrl repo v asset))).map
        (fun v => getAssetUrl repo v asset)).toList := by
  refine ⟨?_, locateAsset_eq_find env repo asset _, locateProbes_eq env repo asset _⟩
  cases h : jsStartsWith "v" version with
  | true => simp [versionsToTry, h]
  | false => simp [versionsToTry, h]

/-- Claim C10: an entry whose `version` field is absent or empty fails
release validation immediately with only the missing-version diagnostic, and
the result is independent of the network oracle (no probe is issued). -/
theorem claim10_missing_version_fails_early (env : NetEnv) (p t : Item)
    (hp : p.version = none ∨ p.version = some "")
    (ht : t.version = none ∨ t.version = some "") :
    validatePluginRelease env p = (false, [Diag.missingVersion]) ∧
    validateThemeRelease env t = (false, [Diag.missingVersion]) ∧
    ∀ env' : NetEnv,
      validatePluginRelease env' p = validatePluginRelease env p ∧
      validateThemeRelease env' t = validateThemeRelease env t := by
  have h1 : ∀ env' : NetEnv, validatePluginRelease env' p = (false, [Diag.missingVersion]) := by
    intro env'
    rcases hp with h | h <;> simp [validatePluginRelease, h]
  have h2 : ∀ env' : NetEnv, validateThemeRelease env' t = (false, [Diag.missingVersion]) := by
    intro env'
    rcases ht with h | h <;> simp [validateThemeRelease, h]
  exact ⟨h1 env, h2 env, fun env' => ⟨(h1 env').trans (h1 env).symm, (h2 env').trans (h2 env).symm⟩⟩

/-- Witness for C10 at a version-less plugin and an empty-version theme. -/
theorem claim10_witness :
    ((⟨"p", "n", none, "https://github.com/o/r", none⟩ : Item).version = none ∨
      (⟨"p", "n", none, "https://github.com/o/r", none⟩ : Item).version = some "") ∧
    validatePluginRelease ⟨fun _ => true, fun _ => none⟩
        ⟨"p", "n", none, "https://github.com/o/r", none⟩ = (false, [Diag.missingVersion]) ∧
    validateThemeRelease ⟨fun _ => true, fun _ => none⟩
        ⟨"t", "n", some "", "https://github.com/o/r", none⟩ = (false, [Diag.missingVersion]) :=
  ⟨Or.inl rfl,
    (claim10_missing_version_fails_early ⟨fun _ => true, fun _ => none⟩
      ⟨"p", "n", none, "https://github.com/o/r", none⟩
      ⟨"t", "n", some "", "https://github.com/o/r", none⟩
      (Or.inl rfl) (Or.inr rfl)).1,
    (claim10_missing_version_fails_early ⟨fun _ => true, fun _ => none⟩
      ⟨"p", "n", none, "https://github.com/o/r", none⟩
      ⟨"t", "n", some "", "https://github.com/o/r", none⟩
      (Or.inl rfl) (Or.inr rfl)).2.1⟩

/-- Counterexample to claim C8 as stated: `getAssetUrl` does not strip a
LEADING GitHub prefix — JavaScript `String.replace` removes the first
occurrence of the pattern anywhere in the string. On a repository URL that
does not start with the prefix but contains it internally, the produced URL
differs from the leading-prefix-stripping reading of the claim. -/
theorem claim8_counterexample :
    getAssetUrl "xhttps://github.com/a/b" "1.0" "main.js" ≠
      specAssetUrl "xhttps://github.com/a/b" "1.0" "main.js" := by decide

/-- Claim C8 (amended): asset URL construction removes the first occurrence
of the substring `https://github.com/`, then of `http://github.com/`, then a
trailing slash; for repository URLs that begin with one of those prefixes
(and do not contain the other prefix again), this coincides with stripping
the leading prefix, and the result is exactly
`https://github.com/<owner>/<repo>/releases/download/<tag>/<filename>`. -/
theorem claim8_amended_strip_leading_prefix (repo version filename : String)
    (h : (jsStartsWith "https://github.com/" repo = true ∧
            listContains "http://github.com/".data (repo.data.drop 19) = false) ∨
         (jsStartsWith "http://github.com/" repo = true ∧
            listContains "https://github.com/".data repo.data = false)) :
    getAssetUrl repo version filename = specAssetUrl repo version filename := by
  rcases h with ⟨h1, h2⟩ | ⟨h1, h2⟩
  · have hlen : "https://github.com/".data.length = 19 := by decide
    have e1 : jsReplaceFirst repo "https://github.com/" = ⟨repo.data.drop 19⟩ := by
      show String.mk (replaceFirstL _ _) = _
      rw [replaceFirstL_of_isPrefixOf _ _ h1, hlen]
    have e2 : jsReplaceFirst (⟨repo.data.drop 19⟩ : String) "http://github.com/" =
        ⟨repo.data.drop 19⟩ := by
      show String.mk (replaceFirstL _ _) = _
      rw [replaceFirstL_of_not_contains _ _ h2]
    simp only [getAssetUrl, specAssetUrl, e1, e2, h1, if_true]
  · have hs : jsStartsWith "https://github.com/" repo = false := by
      cases hval : jsStartsWith "https://github.com/" repo with
      | false => rfl
      | true => exact absurd (listContains_of_isPrefixOf _ _ hval) (by simp [h2])
    have hlen : "http://github.com/".data.length = 18 := by decide
    have e1 : jsReplaceFirst repo "https://github.com/" = repo := by
      show String.mk (replaceFirstL _ _) = _
      rw [replaceFirstL_of_not_contains _ _ h2]
    have e2 : jsReplaceFirst repo "http://github.com/" = ⟨repo.data.drop 18⟩ := by
      show String.mk (replaceFirstL _ _) = _
      rw [replaceFirstL_of_isPrefixOf _ _ h1, hlen]
    simp only [getAssetUrl, specAssetUrl, e1, e2, h1, hs, if_true, Bool.false_eq_true,
      if_false]

/-- Witness for the amended C8 at a well-formed repository URL. -/
theorem claim8_amended_witness :
    (jsStartsWith "https://github.com/" "https://github.com/owner/repo" = true ∧
      listContains "http://github.com/".data
        ("https://github.com/owner/repo".data.drop 19) = false) ∧
    getAssetUrl "https://github.com/owner/repo" "1.0" "main.js" =
      specAssetUrl "https://github.com/owner/repo" "1.0" "main.js" :=
  ⟨⟨by decide, by decide⟩,
    claim8_amended_strip_leading_prefix "https://github.com/owner/repo" "1.0" "main.js"
      (Or.inl ⟨by decide, by decide⟩)⟩

theorem contains_iff_mem_str (l : List String) (x : String) :
    l.contains x = true ↔ x ∈ l := by
  simp [List.contains_eq_any_beq, List.any_eq_true, beq_iff_eq, eq_comm]

/-- Claim C2: an entry of the current list is in the resolved change set iff
it is a current entry and either no base entry carries its `id`, or the base
entry matched by `id` (the first such, which is unique under the registry's
id-uniqueness invariant) has a syntactically different `version` string; an
entry whose base counterpart has an identical `version` string is never
returned, even when other fields differ. -/
theorem claim2_changeset_membership (current base : List Item) (item : Item) :
    (item ∈ getModifiedItems true (RawDoc.parsed current) (some (RawDoc.parsed base)) ↔
      item ∈ current ∧
        ((∀ old ∈ base, old.id ≠ item.id) ∨
          (∃ old, base.find? (fun o => o.id == item.id) = some old ∧
            old.version ≠ item.version))) ∧
    (∀ old ∈ base, (base.map Item.id).Nodup → old.id = item.id →
      old.version = item.version →
      item ∉ getModifiedItems true (RawDoc.parsed current) (some (RawDoc.parsed base))) := by
  have hunfold : getModifiedItems true (RawDoc.parsed current) (some (RawDoc.parsed base)) =
      current.filter (fun it =>
        match base.find? (fun o => o.id == it.id) with
        | none => true
        | some old => old.version != it.version) := by
    simp [getModifiedItems, getJson]
  have hiff : item ∈ getModifiedItems true (RawDoc.parsed current) (some (RawDoc.parsed base)) ↔
      item ∈ current ∧
        ((∀ old ∈ base, old.id ≠ item.id) ∨
          (∃ old, base.find? (fun o => o.id == item.id) = some old ∧
            old.version ≠ item.version)) := by
    rw [hunfold, List.mem_filter]
    cases hfind : base.find? (fun o => o.id == item.id) with
    | none =>
      have hnone := List.find?_eq_none.mp hfind
      simp only [hfind]
      constructor
      · rintro ⟨hc, -⟩
        refine ⟨hc, Or.inl fun old hold => ?_⟩
        simpa using hnone old hold
      · rintro ⟨hc, -⟩
        exact ⟨hc, trivial⟩
    | some old =>
      have hbm : old ∈ base := List.mem_of_find?_eq_some hfind
      have hbeq : old.id = item.id := by simpa using List.find?_some hfind
      simp only [hfind]
      constructor
      · rintro ⟨hc, hne⟩
        refine ⟨hc, Or.inr ⟨old, rfl, ?_⟩⟩
        simpa using hne
      · rintro ⟨hc, hdisj⟩
        refine ⟨hc, ?_⟩
        rcases hdisj with hall | ⟨old', heq, hne⟩
        · exact absurd hbeq (hall old hbm)
        · cases heq
          simpa using hne
  refine ⟨hiff, ?_⟩
  intro old hmem hnodup hid hver hcontra
  rcases hiff.mp hcontra with ⟨-, hall | ⟨old', hfind, hne⟩⟩
  · exact hall old hmem hid
  · have hm' : old' ∈ base := List.mem_of_find?_eq_some hfind
    have hid' : old'.id = item.id := by simpa using List.find?_some hfind
    have : old' = old :=
      List.inj_on_of_nodup_map hnodup hm' hmem (hid'.trans hid.symm)
    subst this
    exact hne hver

/-- Witness for C2: an entry whose base counterpart keeps the same `version`
but a different `repo` is excluded from the change set. -/
theorem claim2_witness :
    (⟨"a", "old", some "1.0", "r", none⟩ : Item) ∈
      [(⟨"a", "old", some "1.0", "r", none⟩ : Item)] ∧
    (⟨"a", "new", some "1.0", "r2", none⟩ : Item) ∉
      getModifiedItems true
        (RawDoc.parsed [⟨"a", "new", some "1.0", "r2", none⟩])
        (some (RawDoc.parsed [⟨"a", "old", some "1.0", "r", none⟩])) :=
  ⟨by decide,
    (claim2_changeset_membership [⟨"a", "new", some "1.0", "r2", none⟩]
        [⟨"a", "old", some "1.0", "r", none⟩] ⟨"a", "new", some "1.0", "r2", none⟩).2
      ⟨"a", "old", some "1.0", "r", none⟩ (by decide) (by decide) rfl rfl⟩

/-- Claim C6: once the manifest document is fetched, the id check and the
version check are both evaluated and reported independently (each mismatch
diagnostic appears exactly when its own check fails, regardless of the
other), any mismatch makes the verdict failing, the verdict is passing iff
both match — so it is fully determined by the manifest and entry fields and
cannot depend on the optional `styles.css` probe, which is only logged. -/
theorem claim6_manifest_checks_independent (env : NetEnv) (p : Item)
    (ver base tag : String) (m : Manifest)
    (hv : p.version = some ver) (hne : ver ≠ "")
    (hloc : locateAsset env p.repo "main.js" (versionsToTry ver) = some (base, tag))
    (hm : env.fetchJson (base ++ "manifest.json") = some m) :
    ((validatePluginRelease env p).1 = (m.id == some p.id && m.version == some ver)) ∧
    ((validatePluginRelease env p).1 = true ↔ (m.id = some p.id ∧ m.version = some ver)) ∧
    (Diag.idMismatch ∈ (validatePluginRelease env p).2 ↔ m.id ≠ some p.id) ∧
    (Diag.versionMismatch ∈ (validatePluginRelease env p).2 ↔ m.version ≠ some ver) ∧
    (Diag.foundStyles ∈ (validatePluginRelease env p).2 ↔
      env.urlExists (base ++ "styles.css") = true) := by
  by_cases hid : m.id = some p.id <;> by_cases hver : m.version = some ver <;>
    cases hst : env.urlExists (base ++ "styles.css") <;>
      simp [validatePluginRelease, hv, hne, hloc, hm, hid, hver, hst]

/-- Witness for C6 at a matching manifest over an all-reachable network. -/
theorem claim6_witness :
    ((⟨fun _ => true, fun _ => some ⟨some "p", some "1.0"⟩⟩ : NetEnv).fetchJson
        ("https://github.com/o/r/releases/download/1.0/" ++ "manifest.json") =
      some ⟨some "p", some "1.0"⟩) ∧
    (validatePluginRelease ⟨fun _ => true, fun _ => some ⟨some "p", some "1.0"⟩⟩
          ⟨"p", "n", some "1.0", "https://github.com/o/r", none⟩).1 = true :=
  ⟨rfl,
    (claim6_manifest_checks_independent
        ⟨fun _ => true, fun _ => some ⟨some "p", some "1.0"⟩⟩
        ⟨"p", "n", some "1.0", "https://github.com/o/r", none⟩
        "1.0" "https://github.com/o/r/releases/download/1.0/" "1.0"
        ⟨some "p", some "1.0"⟩ rfl (by decide) (by decide) rfl).2.1.mpr
      ⟨rfl, rfl⟩⟩

/-- Claim C7: with the theme's modes defaulting to `["dark"]` when absent,
the verdict passes iff for every listed mode its correspondingly named
stylesheet (`dark.css` for `dark`, `light.css` for `light`; other mode names
have no associated stylesheet check) is reachable at the base URL; a mode
not listed is never checked and cannot fail the entry. -/
theorem claim7_theme_modes_stylesheets (env : NetEnv) (t : Item)
    (ver base tag : String)
    (hv : t.version = some ver) (hne : ver ≠ "")
    (hloc : locateAsset env t.repo "theme.json" (versionsToTry ver) = some (base, tag)) :
    ((validateThemeRelease env t).1 = true ↔
      ∀ m ∈ themeModes t,
        (m = "dark" → env.urlExists (base ++ "dark.css") = true) ∧
        (m = "light" → env.urlExists (base ++ "light.css") = true)) ∧
    (t.modes = none →
      (validateThemeRelease env t).1 = env.urlExists (base ++ "dark.css")) := by
  have hv1 : (validateThemeRelease env t).1 =
      ((!(themeModes t).contains "dark" || env.urlExists (base ++ "dark.css")) &&
        (!(themeModes t).contains "light" || env.urlExists (base ++ "light.css"))) := by
    by_cases hd : "dark" ∈ themeModes t <;>
      by_cases hl : "light" ∈ themeModes t <;>
        cases hde : env.urlExists (base ++ "dark.css") <;>
          cases hle : env.urlExists (base ++ "light.css") <;>
            simp [validateThemeRelease, hv, hne, hloc, hd, hl, hde, hle]
  constructor
  · rw [hv1]
    constructor
    · intro hall m hm
      rw [Bool.and_eq_true, Bool.or_eq_true, Bool.or_eq_true] at hall
      constructor
      · rintro rfl
        have hd : (themeModes t).contains "dark" = true :=
          (contains_iff_mem_str _ _).mpr hm
        rcases hall.1 with hneg | hex
        · rw [hd] at hneg; exact absurd hneg (by simp)
        · exact hex
      · rintro rfl
        have hl : (themeModes t).contains "light" = true :=
          (contains_iff_mem_str _ _).mpr hm
        rcases hall.2 with hneg | hex
        · rw [hl] at hneg; exact absurd hneg (by simp)
        · exact hex
    · intro hall
      have pd : (!(themeModes t).contains "dark" ||
          env.urlExists (base ++ "dark.css")) = true := by
        cases hd : (themeModes t).contains "dark"
        · simp
        · have hmem := (contains_iff_mem_str _ _).mp hd
          have := (hall "dark" hmem).1 rfl
          simp [this]
      have pl : (!(themeModes t).contains "light" ||
          env.urlExists (base ++ "light.css")) = true := by
        cases hl : (themeModes t).contains "light"
        · simp
        · have hmem := (contains_iff_mem_str _ _).mp hl
          have := (hall "light" hmem).2 rfl
          simp [this]
      rw [pd, pl]; rfl
  · intro hmodes
    rw [hv1]
    simp [themeModes, hmodes]

/-- Witness for C7: a light-and-dark theme over an all-reachable network
passes. -/
theorem claim7_witness :
    (locateAsset ⟨fun _ => true, fun _ => none⟩ "https://github.com/o/r" "theme.json"
        (versionsToTry "1.0") =
      some ("https://github.com/o/r/releases/download/1.0/", "1.0")) ∧
    ((validateThemeRelease ⟨fun _ => true, fun _ => none⟩
          ⟨"t", "n", some "1.0", "https://github.com/o/r", some ["light", "dark"]⟩).1 = true) :=
  ⟨by decide,
    ((claim7_theme_modes_stylesheets ⟨fun _ => true, fun _ => none⟩
          ⟨"t", "n", some "1.0", "https://github.com/o/r", some ["light", "dark"]⟩
          "1.0" "https://github.com/o/r/releases/download/1.0/" "1.0"
          rfl (by decide) (by decide)).1).mpr
      (by intro m hm; exact ⟨fun _ => rfl, fun _ => rfl⟩)⟩

theorem foldl_and_script (env : PrEnv) (l : List (String × List String)) (b : Bool) :
    l.foldl (fun acc s => acc && env.runScript s.1 s.2) b =
      (b && l.all (fun s => env.runScript s.1 s.2)) := by
  induction l generalizing b with
  | nil => simp
  | cons x xs ih => simp [List.foldl_cons, ih, Bool.and_assoc]

theorem all_map_pairs (l : List Item) (g : Item → Bool) :
    (l.map (fun p => (p, g p))).all (fun r => r.2) = l.all g := by
  induction l with
  | nil => rfl
  | cons x xs ih => simp [ih]

theorem toValidate_all (c : Bool) (l : List Item) (g : Item → Bool) :
    (if c && !l.isEmpty then l.map (fun p => (p, g p)) else []).all (fun r => r.2) =
      (if c then l else []).all g := by
  cases c with
  | false => simp
  | true =>
    cases hl : l.isEmpty with
    | true =>
      have : l = [] := List.isEmpty_iff.mp hl
      simp [this]
    | false => simp [hl, all_map_pairs]

theorem prExitCode_concluded (b : Bool) :
    prExitCode (PrOutcome.concluded b) = 0 ↔ b = true := by
  cases b <;> simp [prExitCode]

theorem relMainCore_eval (cp ct : Bool) (mp mt : List Item) (env : NetEnv) :
    (relMainCore cp ct mp mt env).2.1 =
      (if cp && !mp.isEmpty then
        mp.map (fun p => (p, (validatePluginRelease env p).1)) else []) ∧
    (relMainCore cp ct mp mt env).2.2 =
      (if ct && !mt.isEmpty then
        mt.map (fun t => (t, (validateThemeRelease env t).1)) else []) ∧
    ((relMainCore cp ct mp mt env).1 = 0 ↔
      ((if cp then mp else []).all (fun p => (validatePluginRelease env p).1) = true ∧
        (if ct then mt else []).all (fun t => (validateThemeRelease env t).1) = true)) ∧
    ((relMainCore cp ct mp mt env).1 = 0 ∨ (relMainCore cp ct mp mt env).1 = 1) := by
  by_cases hc : ((if cp then mp else []).isEmpty && (if ct then mt else []).isEmpty) = true
  · have hre : relMainCore cp ct mp mt env = (0, [], []) := by
      simp only [relMainCore]
      rw [if_pos hc]
    rw [Bool.and_eq_true] at hc
    obtain ⟨h1, h2⟩ := hc
    refine ⟨?_, ?_, ?_, ?_⟩
    · rw [hre]
      cases cp with
      | false => simp
      | true =>
        have : mp = [] := List.isEmpty_iff.mp (by simpa using h1)
        simp [this]
    · rw [hre]
      cases ct with
      | false => simp
      | true =>
        have : mt = [] := List.isEmpty_iff.mp (by simpa using h2)
        simp [this]
    · rw [hre]
      have e1 : (if cp then mp else []) = [] := List.isEmpty_iff.mp h1
      have e2 : (if ct then mt else []) = [] := List.isEmpty_iff.mp h2
      simp [e1, e2]
    · rw [hre]; left; rfl
  · have hre : relMainCore cp ct mp mt env =
        (if ((if cp && !mp.isEmpty then
                mp.map (fun p => (p, (validatePluginRelease env p).1)) else []) ++
             (if ct && !mt.isEmpty then
                mt.map (fun t => (t, (validateThemeRelease env t).1)) else [])).foldl
              (fun acc r => acc && r.2) true
          then 0 else 1,
          if cp && !mp.isEmpty then
            mp.map (fun p => (p, (validatePluginRelease env p).1)) else [],
          if ct && !mt.isEmpty then
            mt.map (fun t => (t, (validateThemeRelease env t).1)) else []) := by
      simp only [relMainCore]
      rw [if_neg hc]
    rw [hre]
    refine ⟨rfl, rfl, ?_, ?_⟩
    · rw [foldl_and_eq_all, Bool.true_and, List.all_append, toValidate_all, toValidate_all]
      cases hA : (if cp then mp else []).all (fun p => (validatePluginRelease env p).1) <;>
        cases hB : (if ct then mt else []).all (fun t => (validateThemeRelease env t).1) <;>
          simp [hA, hB]
    · cases hAll : ((if cp && !mp.isEmpty then
            mp.map (fun p => (p, (validatePluginRelease env p).1)) else []) ++
          (if ct && !mt.isEmpty then
            mt.map (fun t => (t, (validateThemeRelease env t).1)) else [])).foldl
          (fun acc r => acc && r.2) true <;> simp [hAll]

/-- Claim C4: in the release validator, every selected changed entry is
validated (the recorded verdict lists cover every entry even after earlier
failures), the exit code is 0 exactly when every individual verdict across
both registries is passing (vacuously when there is nothing to check) and 1
otherwise; and in the orchestrator (outside the exclusivity rejection) the
exit status is 0 exactly when every invoked collaborator script succeeded. -/
theorem claim4_aggregate_verdict_is_and (args : List String)
    (pe : Bool) (pr : RawDoc) (pb : Option RawDoc)
    (te : Bool) (tr : RawDoc) (tb : Option RawDoc) (env : NetEnv) :
    ((relMain args pe pr pb te tr tb env).2.1 =
      (if (args.isEmpty || args.contains "plugins") &&
            !(getModifiedItems pe pr pb).isEmpty then
        (getModifiedItems pe pr pb).map (fun p => (p, (validatePluginRelease env p).1))
        else [])) ∧
    ((relMain args pe pr pb te tr tb env).2.2 =
      (if (args.isEmpty || args.contains "themes") &&
            !(getModifiedItems te tr tb).isEmpty then
        (getModifiedItems te tr tb).map (fun t => (t, (validateThemeRelease env t).1))
        else [])) ∧
    ((relMain args pe pr pb te tr tb env).1 = 0 ↔
      ((if args.isEmpty || args.contains "plugins" then
          getModifiedItems pe pr pb else []).all
          (fun p => (validatePluginRelease env p).1) = true ∧
        (if args.isEmpty || args.contains "themes" then
          getModifiedItems te tr tb else []).all
          (fun t => (validateThemeRelease env t).1) = true)) ∧
    ((relMain args pe pr pb te tr tb env).1 = 0 ∨
      (relMain args pe pr pb te tr tb env).1 = 1) ∧
    (∀ (prenv : PrEnv) (files : List String),
      ¬(files.any (fun f => sContains "plugins.json" f) = true ∧
          files.any (fun f => sContains "themes.json" f) = true) →
      (prExitCode (prMain prenv files).1 = 0 ↔
        (prMain prenv files).2.all (fun s => prenv.runScript s.1 s.2) = true)) := by
  obtain ⟨h1, h2, h3, h4⟩ :=
    relMainCore_eval (args.isEmpty || args.contains "plugins")
      (args.isEmpty || args.contains "themes")
      (getModifiedItems pe pr pb) (getModifiedItems te tr tb) env
  refine ⟨h1, h2, h3, h4, ?_⟩
  intro prenv files hnb
  cases hp : files.any (fun f => sContains "plugins.json" f) with
  | true =>
    cases ht : files.any (fun f => sContains "themes.json" f) with
    | true => exact absurd ⟨hp, ht⟩ hnb
    | false => simp [prMain, hp, ht, foldl_and_script, prExitCode_concluded, and_assoc]
  | false =>
    cases ht : files.any (fun f => sContains "themes.json" f) with
    | true => simp [prMain, hp, ht, foldl_and_script, prExitCode_concluded, and_assoc]
    | false => simp [prMain, hp, ht, prExitCode]

/-- Witness for C4's orchestrator conjunct at a plugins-only diff. -/
theorem claim4_witness :
    ¬((["plugins.json"].any (fun f => sContains "plugins.json" f) = true) ∧
        (["plugins.json"].any (fun f => sContains "themes.json" f) = true)) ∧
    (prExitCode (prMain ⟨fun _ _ => true⟩ ["plugins.json"]).1 = 0 ↔
      (prMain ⟨fun _ _ => true⟩ ["plugins.json"]).2.all
        (fun s => (⟨fun _ _ => true⟩ : PrEnv).runScript s.1 s.2) = true) :=
  ⟨by decide,
    (claim4_aggregate_verdict_is_and [] true (RawDoc.parsed []) none
        true (RawDoc.parsed []) none ⟨fun _ => true, fun _ => none⟩).2.2.2.2
      ⟨fun _ _ => true⟩ ["plugins.json"] (by decide)⟩

/-- Claim C5: when the base snapshot is unavailable (`git show` failed or
yielded no content), every entry of the current snapshot is treated as
changed, and the unavailability is never fatal: the run still concludes with
the exit code determined solely by the per-entry checks over all current
entries. -/
theorem claim5_base_unavailable_fail_open (cur : List Item) :
    getModifiedItems true (RawDoc.parsed cur) none = cur ∧
    ∀ (args : List String) (te : Bool) (tr : RawDoc) (tb : Option RawDoc) (env : NetEnv),
      ((relMain args true (RawDoc.parsed cur) none te tr tb env).1 = 0 ↔
        ((if args.isEmpty || args.contains "plugins" then cur else []).all
            (fun p => (validatePluginRelease env p).1) = true ∧
          (if args.isEmpty || args.contains "themes" then
            getModifiedItems te tr tb else []).all
            (fun t => (validateThemeRelease env t).1) = true)) := by
  have hcur : getModifiedItems true (RawDoc.parsed cur) none = cur := by
    simp [getModifiedItems, getJson]
  refine ⟨hcur, ?_⟩
  intro args te tr tb env
  have h :=
    (relMainCore_eval (args.isEmpty || args.contains "plugins")
      (args.isEmpty || args.contains "themes")
      (getModifiedItems true (RawDoc.parsed cur) none)
      (getModifiedItems te tr tb) env).2.2.1
  rw [hcur] at h
  exact h

/-- Counterexample to claim C9 as stated: with a malformed current
`plugins.json` (and no themes file), the release validator's `getJson`
catches the parse error and returns an empty registry, so the run finds
nothing to check, validates no entry, and exits 0 — it does not report a
failing verdict. -/
theorem claim9_counterexample :
    (relMain [] true RawDoc.malformed none false RawDoc.malformed none
        ⟨fun _ => false, fun _ => none⟩).1 = 0 ∧
    (relMain [] true RawDoc.malformed none false RawDoc.malformed none
        ⟨fun _ => false, fun _ => none⟩).2.1 = [] := by decide

/-- Claim C9 (amended): a malformed current registry file does not fail the
release validator; `getJson` recovers it to an empty entry list, so the
change set is empty and a run selecting only that registry checks nothing
and exits 0. (In the orchestrated flow the malformed file is instead caught
by the separate JSON-format collaborator script.) -/
theorem claim9_amended_malformed_registry_is_empty (pe : Bool) (pb : Option RawDoc) :
    getModifiedItems pe RawDoc.malformed pb = [] ∧
    ∀ (te : Bool) (tr : RawDoc) (tb : Option RawDoc) (env : NetEnv),
      relMain ["plugins"] true RawDoc.malformed pb te tr tb env = (0, [], []) := by
  have hempty : ∀ (pe' : Bool) (pb' : Option RawDoc),
      getModifiedItems pe' RawDoc.malformed pb' = [] := by
    intro pe' pb'
    cases pe' <;> cases pb' <;> simp [getModifiedItems, getJson]
  refine ⟨hempty pe pb, ?_⟩
  intro te tr tb env
  simp [relMain, relMainCore, hempty]

end Inkdown
